import Mathlib

/-!
Shallow embedding of `src/ipfoo.py` (an IPv4 format detector/normalizer and
representation expander) and proofs about the claims of its specification.

Python strings are modelled internally as `List Char`, restricted to the ASCII
fragment the program's rules manipulate (the regexes and `str.isdigit` are
modelled for ASCII digits; Unicode digit classes are out of scope for every
claim).  Python `str.split('.')` is modelled by `splitOnDot`, `'.'.join` by
`joinDots`, `str(int)` rendering by `natToChars`, and `int(s)` / `int(s, 8)` /
`int(s, 16)` by the fold functions below.  Fallible conversions return
`Option`; an uncaught Python exception is the distinguished `ParseResult.exc`.
-/

set_option maxHeartbeats 1000000

namespace IpFoo

/-- Numeric value of an ASCII digit character (`ord(c) - ord('0')`). -/
def chDigit (c : Char) : Nat := c.toNat - 48

/-- The ASCII digit character of a digit value below 10. -/
def digitCh : Nat → Char
  | 0 => '0' | 1 => '1' | 2 => '2' | 3 => '3' | 4 => '4'
  | 5 => '5' | 6 => '6' | 7 => '7' | 8 => '8' | _ => '9'

/-- `c` is an ASCII octal digit. -/
def isOctDigitCh (c : Char) : Bool := '0' ≤ c && c ≤ '7'

/-- `c` is an ASCII digit or a dot (the character class of the octal-rule fallback test). -/
def digitOrDot (c : Char) : Bool := c.isDigit || c == '.'

/-- Base-`b` left fold of a digit string: the value of `int(s, b)` for an
all-digit string `s`. -/
def foldBase (b : Nat) (l : List Char) : Nat := l.foldl (fun a c => a * b + chDigit c) 0

/-- Value of Python `int(s)` on an all-ASCII-digit string. -/
def natOfChars (l : List Char) : Nat := foldBase 10 l

/-- Base-`b` digit list of `n`, least significant first, computed with
structural fuel so that it evaluates by kernel reduction. -/
def baseDigitsRev (b : Nat) : Nat → Nat → List Nat
  | 0, _ => []
  | fuel + 1, n => if n = 0 then [] else n % b :: baseDigitsRev b fuel (n / b)

/-- Rendering of `n` in base `b` as ASCII digit characters, most significant
first: Python `str(n)` for `b = 10` and `format(n, "o")` for `b = 8`. -/
def renderBase (b n : Nat) : List Char :=
  if n = 0 then ['0'] else ((baseDigitsRev b n n).map digitCh).reverse

/-- Python `str(n)` for a natural number `n`. -/
def natToChars (n : Nat) : List Char := renderBase 10 n

/-- Python `format(n, "o")`: base-8 rendering without prefix. -/
def octChars (n : Nat) : List Char := renderBase 8 n

theorem chDigit_digitCh (d : Nat) (h : d < 10) : chDigit (digitCh d) = d := by
  interval_cases d <;> rfl

theorem isDigit_digitCh (d : Nat) (h : d < 10) : (digitCh d).isDigit = true := by
  interval_cases d <;> decide

theorem isOctDigitCh_digitCh (d : Nat) (h : d < 8) : isOctDigitCh (digitCh d) = true := by
  interval_cases d <;> decide

theorem digitCh_ne_zero (d : Nat) (h1 : d ≠ 0) (h2 : d < 10) : digitCh d ≠ '0' := by
  interval_cases d <;> simp_all <;> decide

theorem ne_dot_of_isDigit {c : Char} (h : c.isDigit = true) : c ≠ '.' := by
  intro he; subst he; exact absurd h (by decide)

theorem baseDigitsRev_eq {b : Nat} (hb : 1 < b) :
    ∀ fuel n, n ≤ fuel → baseDigitsRev b fuel n = Nat.digits b n := by
  intro fuel
  induction fuel with
  | zero =>
    intro n hn
    have : n = 0 := Nat.le_zero.mp hn
    subst this
    simp [baseDigitsRev]
  | succ f ih =>
    intro n hn
    by_cases h0 : n = 0
    · subst h0; simp [baseDigitsRev]
    · have hpos : 0 < n := Nat.pos_of_ne_zero h0
      have hdiv : n / b ≤ f := by
        have := Nat.div_lt_self hpos hb
        omega
      rw [baseDigitsRev, if_neg h0, ih (n / b) hdiv,
        ← Nat.digits_def' hb hpos]

theorem renderBase_eq_digits {b : Nat} (hb : 1 < b) (n : Nat) (h0 : n ≠ 0) :
    renderBase b n = ((Nat.digits b n).map digitCh).reverse := by
  rw [renderBase, if_neg h0, baseDigitsRev_eq hb n n le_rfl]

theorem renderBase_ne_nil {b : Nat} (hb : 1 < b) (n : Nat) : renderBase b n ≠ [] := by
  by_cases h0 : n = 0
  · subst h0; simp [renderBase]
  · rw [renderBase_eq_digits hb n h0]
    simp [Nat.digits_ne_nil_iff_ne_zero.mpr h0]

theorem mem_renderBase {b n : Nat} {c : Char} (hb : 1 < b) (hc : c ∈ renderBase b n) :
    ∃ d, d < b ∧ c = digitCh d := by
  by_cases h0 : n = 0
  · subst h0
    simp [renderBase] at hc
    exact ⟨0, by omega, by simp [hc, digitCh]⟩
  · rw [renderBase_eq_digits hb n h0] at hc
    rw [List.mem_reverse, List.mem_map] at hc
    obtain ⟨d, hd, rfl⟩ := hc
    exact ⟨d, Nat.digits_lt_base hb hd, rfl⟩

theorem isDigit_of_mem_renderBase {b n : Nat} {c : Char} (hb : 1 < b) (hb10 : b ≤ 10)
    (hc : c ∈ renderBase b n) : c.isDigit = true := by
  obtain ⟨d, hd, rfl⟩ := mem_renderBase hb hc
  exact isDigit_digitCh d (lt_of_lt_of_le hd hb10)

theorem foldl_digitCh_reverse (b : Nat) (l : List Nat) (hl : ∀ d ∈ l, d < 10) :
    ∀ a : Nat, ((l.map digitCh).reverse).foldl (fun x c => x * b + chDigit c) a =
      a * b ^ l.length + Nat.ofDigits b l := by
  induction l with
  | nil => intro a; simp
  | cons d t ih =>
    intro a
    simp only [List.map_cons, List.reverse_cons, List.foldl_append, List.foldl_cons,
      List.foldl_nil]
    rw [ih (fun x hx => hl x (List.mem_cons_of_mem _ hx)) a]
    rw [chDigit_digitCh d (hl d (List.mem_cons_self _ _))]
    rw [Nat.ofDigits_cons, List.length_cons]
    ring

theorem foldBase_renderBase {b : Nat} (hb : 1 < b) (hb10 : b ≤ 10) (n : Nat) :
    foldBase b (renderBase b n) = n := by
  by_cases h0 : n = 0
  · subst h0; simp [renderBase, foldBase, chDigit]
  · rw [renderBase_eq_digits hb n h0, foldBase,
      foldl_digitCh_reverse b _ (fun d hd => lt_of_lt_of_le (Nat.digits_lt_base hb hd) hb10)]
    simpa using Nat.ofDigits_digits b n

theorem natOfChars_natToChars (n : Nat) : natOfChars (natToChars n) = n :=
  foldBase_renderBase (by norm_num) (by norm_num) n

theorem natToChars_length_le {n : Nat} (h : n ≤ 255) : (natToChars n).length ≤ 3 := by
  by_cases h0 : n = 0
  · subst h0; simp [natToChars, renderBase]
  · rw [natToChars, renderBase_eq_digits (by norm_num) n h0]
    simp only [List.length_reverse, List.length_map]
    by_contra hlen
    push_neg at hlen
    have hle := Nat.base_pow_length_digits_le 10 n (by norm_num) h0
    have h4 : (10 : Nat) ^ 4 ≤ 10 ^ (Nat.digits 10 n).length :=
      Nat.pow_le_pow_right (by norm_num) hlen
    omega

theorem renderBase_singleton {b n : Nat} (hb : 1 < b) (hn : n < b) :
    renderBase b n = [digitCh n] := by
  by_cases h0 : n = 0
  · subst h0; simp [renderBase, digitCh]
  · rw [renderBase_eq_digits hb n h0, Nat.digits_of_lt b n h0 hn]
    rfl

theorem natToChars_headD_ne_zero {n : Nat} (h0 : n ≠ 0) :
    (natToChars n).headD 'x' ≠ '0' := by
  rw [natToChars, renderBase_eq_digits (by norm_num) n h0]
  rcases List.eq_nil_or_concat (Nat.digits 10 n) with hnil | ⟨L, d, hLd⟩
  · exact absurd hnil (Nat.digits_ne_nil_iff_ne_zero.mpr h0)
  · rw [hLd]
    simp only [List.concat_eq_append, List.map_append, List.map_cons, List.map_nil,
      List.reverse_append, List.reverse_cons, List.reverse_nil, List.nil_append,
      List.cons_append, List.headD_cons]
    have hd0 : d ≠ 0 := by
      have hlast := Nat.getLast_digit_ne_zero 10 h0
      have : (Nat.digits 10 n).getLast (Nat.digits_ne_nil_iff_ne_zero.mpr h0) = d := by
        simp only [hLd, List.concat_eq_append]
        exact List.getLast_append _
      omega
    have hdlt : d < 10 := by
      refine Nat.digits_lt_base (b := 10) (m := n) (by norm_num) ?_
      rw [hLd]; simp
    exact digitCh_ne_zero d hd0 hdlt

/-- Python `s.split('.')`: split at every dot, keeping empty pieces
(`''.split('.') == ['']`). -/
def splitOnDot : List Char → List (List Char)
  | [] => [[]]
  | c :: cs =>
    if c = '.' then [] :: splitOnDot cs
    else (c :: (splitOnDot cs).headD []) :: (splitOnDot cs).tail

/-- Python `'.'.join(parts)`. -/
def joinDots : List (List Char) → List Char
  | [] => []
  | [p] => p
  | p :: q :: rest => p ++ '.' :: joinDots (q :: rest)

theorem splitOnDot_ne_nil (l : List Char) : splitOnDot l ≠ [] := by
  cases l with
  | nil => simp [splitOnDot]
  | cons c cs =>
    rw [splitOnDot]
    split_ifs <;> simp

theorem splitOnDot_cons_eq (l : List Char) :
    splitOnDot l = (splitOnDot l).headD [] :: (splitOnDot l).tail := by
  cases h : splitOnDot l with
  | nil => exact absurd h (splitOnDot_ne_nil l)
  | cons a t => simp

theorem join_split (l : List Char) : joinDots (splitOnDot l) = l := by
  induction l with
  | nil => rfl
  | cons c cs ih =>
    obtain ⟨h, t, hht⟩ : ∃ h t, splitOnDot cs = h :: t := by
      cases hsp : splitOnDot cs with
      | nil => exact absurd hsp (splitOnDot_ne_nil cs)
      | cons h t => exact ⟨h, t, rfl⟩
    rw [hht] at ih
    by_cases hc : c = '.'
    · subst hc
      rw [splitOnDot, if_pos rfl, hht, joinDots, ih]
      simp
    · rw [splitOnDot, if_neg hc, hht]
      cases t with
      | nil =>
        simp only [List.headD_cons, List.tail_cons, joinDots]
        rw [joinDots] at ih
        rw [ih]
      | cons q t' =>
        simp only [List.headD_cons, List.tail_cons, joinDots]
        rw [joinDots] at ih
        rw [List.cons_append, ih]

theorem splitOnDot_append_nodot :
    ∀ (p l : List Char), (∀ c ∈ p, c ≠ '.') →
      splitOnDot (p ++ l) = (p ++ (splitOnDot l).headD []) :: (splitOnDot l).tail := by
  intro p
  induction p with
  | nil => intro l _; simpa using splitOnDot_cons_eq l
  | cons c p ih =>
    intro l h
    have hc : c ≠ '.' := h c (List.mem_cons_self _ _)
    rw [List.cons_append, splitOnDot, if_neg hc,
      ih l (fun x hx => h x (List.mem_cons_of_mem _ hx))]
    simp

theorem split_join :
    ∀ (ps : List (List Char)), ps ≠ [] → (∀ p ∈ ps, ∀ c ∈ p, c ≠ '.') →
      splitOnDot (joinDots ps) = ps := by
  intro ps
  induction ps with
  | nil => intro h; exact absurd rfl h
  | cons p ps ih =>
    intro _ h
    cases ps with
    | nil =>
      show splitOnDot (joinDots [p]) = [p]
      rw [joinDots]
      have := splitOnDot_append_nodot p [] (h p (List.mem_cons_self _ _))
      simpa [splitOnDot] using this
    | cons q ps' =>
      show splitOnDot (p ++ '.' :: joinDots (q :: ps')) = p :: q :: ps'
      rw [splitOnDot_append_nodot p _ (h p (List.mem_cons_self _ _))]
      have hq : splitOnDot ('.' :: joinDots (q :: ps')) = [] :: splitOnDot (joinDots (q :: ps')) := by
        rw [splitOnDot, if_pos rfl]
      rw [hq, ih (by simp) (fun x hx c hc => h x (List.mem_cons_of_mem _ hx) c hc)]
      simp

theorem mem_joinDots :
    ∀ {ps : List (List Char)} {c : Char}, c ∈ joinDots ps → c = '.' ∨ ∃ p ∈ ps, c ∈ p := by
  intro ps
  induction ps with
  | nil => intro c hc; simp [joinDots] at hc
  | cons p ps ih =>
    intro c hc
    cases ps with
    | nil =>
      rw [joinDots] at hc
      exact Or.inr ⟨p, List.mem_cons_self _ _, hc⟩
    | cons q ps' =>
      rw [joinDots] at hc
      rcases List.mem_append.mp hc with hp | hrest
      · exact Or.inr ⟨p, List.mem_cons_self _ _, hp⟩
      · rcases List.mem_cons.mp hrest with hdot | htail
        · exact Or.inl hdot
        · rcases ih htail with hdot | ⟨r, hr, hcr⟩
          · exact Or.inl hdot
          · exact Or.inr ⟨r, List.mem_cons_of_mem _ hr, hcr⟩

theorem dot_mem_joinDots (p q : List Char) (rest : List (List Char)) :
    '.' ∈ joinDots (p :: q :: rest) := by
  rw [joinDots]
  exact List.mem_append.mpr (Or.inr (List.mem_cons_self _ _))

/-- Python `s.strip()` (whitespace trim at both ends). -/
def pyStrip (l : List Char) : List Char :=
  ((l.dropWhile Char.isWhitespace).reverse.dropWhile Char.isWhitespace).reverse

/-- A nonempty all-digit group: one `\d+` regex group, and also Python
`str.isdigit()` on ASCII text (`''.isdigit() == False`). -/
def isDigitPart (p : List Char) : Bool := !p.isEmpty && p.all Char.isDigit

/-- The rule-1 regex `^\d{1,3}\.\d{1,3}\.\d{1,3}\.\d{1,3}$` (line 11). -/
def matchStd4 (l : List Char) : Bool :=
  (splitOnDot l).length == 4 &&
    (splitOnDot l).all (fun p => isDigitPart p && decide (p.length ≤ 3))

/-- The rule-5 regex `^\d+\.\d+\.\d+$` (line 29). -/
def matchDotted3 (l : List Char) : Bool :=
  (splitOnDot l).length == 3 && (splitOnDot l).all isDigitPart

/-- The rule-6 regex `^\d+(\.\d+){1,2}$` (line 37). -/
def matchDotted23 (l : List Char) : Bool :=
  ((splitOnDot l).length == 2 || (splitOnDot l).length == 3) &&
    (splitOnDot l).all isDigitPart

/-- The octal-rule regex `^0\d+(\.\d+){3}$` (line 52). -/
def octalCondA (l : List Char) : Bool :=
  (splitOnDot l).length == 4 && (splitOnDot l).all isDigitPart &&
    ((splitOnDot l).headD []).headD ' ' == '0' && decide (2 ≤ ((splitOnDot l).headD []).length)

/-- `all(c.isdigit() or c == '.' for c in input_str)` (line 52); `true` on `""`. -/
def octalCondB (l : List Char) : Bool := l.all digitOrDot

/-- Python `s.startswith('0x')`. -/
def startsWith0x (l : List Char) : Bool := decide (l.take 2 = ['0', 'x'])

/-- Python `s.startswith('::ffff:')`. -/
def startsWithMapped (l : List Char) : Bool :=
  decide (l.take 7 = [':', ':', 'f', 'f', 'f', 'f', ':'])

/-- Python `int(s, 8)` on an all-digit group: fails (ValueError) on an empty
group or on the digits 8 and 9. -/
def pyIntOct (p : List Char) : Option Nat :=
  if !p.isEmpty && p.all isOctDigitCh then some (foldBase 8 p) else none

/-- `c` is an ASCII hexadecimal digit. -/
def isHexDigitCh (c : Char) : Bool :=
  c.isDigit || ('a' ≤ c && c ≤ 'f') || ('A' ≤ c && c ≤ 'F')

/-- Value of an ASCII hexadecimal digit. -/
def hexDigitVal (c : Char) : Nat :=
  if c.isDigit then chDigit c
  else if 'a' ≤ c && c ≤ 'f' then c.toNat - 87
  else c.toNat - 55

/-- Python `int(s, 16)` for `s` starting with `0x`: parse the remainder as
hexadecimal, failing (ValueError) when it is empty or not all hex digits.
(Underscore digit separators of Python numeric literals are not modelled.) -/
def pyIntHex (l : List Char) : Option Nat :=
  if !(l.drop 2).isEmpty && (l.drop 2).all isHexDigitCh then
    some ((l.drop 2).foldl (fun a c => a * 16 + hexDigitVal c) 0)
  else none

/-- Result of `parse_input`: a returned string, `None` (fall-through at line
65), or an uncaught Python exception propagating out of the function. -/
inductive ParseResult where
  | ok (s : String)
  | noMatch
  | exc
deriving DecidableEq

/-- `2 ** 32`; `ipaddress.IPv4Address(n)` raises for `n` at or above it. -/
def UINT32 : Nat := 4294967296

/-- The four octets of the 32-bit value `n`, as `str(ipaddress.IPv4Address(n))`
renders them (big-endian). -/
def octetsOf (n : Nat) : List Nat :=
  [n / 16777216 % 256, n / 65536 % 256, n / 256 % 256, n % 256]

/-- `'.'.join(str(x) for x in xs)`: the dotted rendering of a list of numbers. -/
def renderQuad (xs : List Nat) : List Char := joinDots (xs.map natToChars)

/-- The per-group transformation of the octal rule (lines 54-61): a group
starting with `'0'` of length > 1 is reinterpreted base-8 and re-rendered in
decimal, any other group is kept verbatim; `none` models the caught
ValueError of `int(part, 8)`. -/
def octalPartConv (p : List Char) : Option (List Char) :=
  if p.headD ' ' == '0' && decide (1 < p.length) then (pyIntOct p).map natToChars
  else some p

/-- The octal rule's loop over all groups; `none` as soon as one group fails. -/
def octalPartsConv : List (List Char) → Option (List (List Char))
  | [] => some []
  | p :: ps =>
    match octalPartConv p, octalPartsConv ps with
    | some q, some qs => some (q :: qs)
    | _, _ => none

/-- The whole try-block of the octal rule (lines 53-63): transform every
group and join with dots. -/
def octalRuleConv (l : List Char) : Option (List Char) :=
  (octalPartsConv (splitOnDot l)).map joinDots

/-- Rule 7, octal format (lines 51-63), else `return None` (line 65). -/
def fromOctalStage (l : List Char) : ParseResult :=
  if octalCondA l || octalCondB l then
    match octalRuleConv l with
    | some r => .ok ⟨r⟩
    | none => .noMatch
  else .noMatch

/-- Rule 6, truncated format (lines 36-49), falling through to the octal rule.
The f-strings over `int` values are modelled by `renderQuad`; the dead
`divmod` computations of lines 45-46 (their results are unused by the
`return` of line 47) are omitted. -/
def fromTruncStage (l : List Char) : ParseResult :=
  if matchDotted23 l then
    if (splitOnDot l).length == 2 then
      let a := natOfChars ((splitOnDot l).headD [])
      let combined := natOfChars ((splitOnDot l).getD 1 [])
      if combined ≤ 255 then .ok ⟨renderQuad [a, 0, 0, combined]⟩
      else .ok ⟨renderQuad [a, 0, combined / 256, combined % 256]⟩
    else
      if (splitOnDot l).all (fun p => decide (natOfChars p ≤ 255)) then
        .ok ⟨joinDots [(splitOnDot l).getD 0 [], (splitOnDot l).getD 1 [], ['0'],
          (splitOnDot l).getD 2 []]⟩
      else fromOctalStage l
  else fromOctalStage l

/-- Rule 5, integer overflow format (lines 28-34), falling through to rule 6. -/
def fromOverflowStage (l : List Char) : ParseResult :=
  if matchDotted3 l then
    if 255 < natOfChars ((splitOnDot l).getD 2 []) then
      let a := natOfChars ((splitOnDot l).getD 0 [])
      let b := natOfChars ((splitOnDot l).getD 1 [])
      let combined := natOfChars ((splitOnDot l).getD 2 [])
      .ok ⟨renderQuad [a, b, combined / 256, combined % 256]⟩
    else fromTruncStage l
  else fromTruncStage l

/-- Rule 4, IPv6 mapped (lines 24-26), falling through to rule 5. -/
def fromMappedStage (l : List Char) : ParseResult :=
  if startsWithMapped l then .ok ⟨l.drop 7⟩ else fromOverflowStage l

/-- Rule 3, 32-bit hex (lines 19-22), falling through to rule 4.  A bad hex
remainder or a value at or above `2**32` raises out of `parse_input`. -/
def fromHexStage (l : List Char) : ParseResult :=
  if startsWith0x l then
    match pyIntHex l with
    | some n => if n < UINT32 then .ok ⟨renderQuad (octetsOf n)⟩ else .exc
    | none => .exc
  else fromMappedStage l

/-- Rule 2, 32-bit decimal (lines 14-17), falling through to rule 3. -/
def fromDecimalStage (l : List Char) : ParseResult :=
  if isDigitPart l then
    if natOfChars l < UINT32 then .ok ⟨renderQuad (octetsOf (natOfChars l))⟩ else .exc
  else fromHexStage l

/-- Rule 1, standard IPv4 (lines 10-12), falling through to rule 2. -/
def fromStdStage (l : List Char) : ParseResult :=
  if matchStd4 l then .ok ⟨l⟩ else fromDecimalStage l

/-- `parse_input` (lines 6-65): strip, then run the rules in order. -/
def parse_input (s : String) : ParseResult := fromStdStage (pyStrip s.data)

/-- One octet group accepted by `ipaddress.IPv4Address`: nonempty ASCII
digits, at most 3 characters, no leading zero, value at most 255. -/
def validOctet (p : List Char) : Bool :=
  isDigitPart p && decide (p.length ≤ 3) &&
    (decide (p.length ≤ 1) || !(p.headD ' ' == '0')) && decide (natOfChars p ≤ 255)

/-- `ipaddress.IPv4Address(s)` accepts `s`: four dot-separated valid octets. -/
def validIPv4 (l : List Char) : Bool :=
  (splitOnDot l).length == 4 && (splitOnDot l).all validOctet

/-- The 32-bit integer value of a parsed four-octet address (`int(ip)`). -/
def ofOctets : List Nat → Nat
  | [a, b, c, d] => a * 16777216 + b * 65536 + c * 256 + d
  | _ => 0

/-- One hexadecimal digit character (lowercase). -/
def hexCh : Nat → Char
  | 0 => '0' | 1 => '1' | 2 => '2' | 3 => '3' | 4 => '4' | 5 => '5' | 6 => '6'
  | 7 => '7' | 8 => '8' | 9 => '9' | 10 => 'a' | 11 => 'b' | 12 => 'c'
  | 13 => 'd' | 14 => 'e' | _ => 'f'

/-- `f"{n:08x}"` for `n < 2**32`: eight zero-padded lowercase hex digits. -/
def hex8 (n : Nat) : List Char :=
  [hexCh (n / 268435456 % 16), hexCh (n / 16777216 % 16), hexCh (n / 1048576 % 16),
   hexCh (n / 65536 % 16), hexCh (n / 4096 % 16), hexCh (n / 256 % 16),
   hexCh (n / 16 % 16), hexCh (n % 16)]

/-- The truncated-format loop (lines 80-84): keep octets until every later
octet is zero (the first octet is always kept). -/
def truncatedParts : List Nat → List Nat
  | [] => []
  | x :: xs => if xs.all (· == 0) then [x] else x :: truncatedParts xs

/-- The Truncated line's string (line 85). -/
def truncatedRepr (octs : List Nat) : List Char :=
  joinDots ((truncatedParts octs).map natToChars)

/-- The Overflow/truncate line's string (lines 90-95). -/
def overflowRepr (octs : List Nat) : List Char :=
  if octs.getD 1 0 = 0 then
    joinDots [natToChars (octs.getD 0 0), natToChars (octs.getD 2 0 * 256 + octs.getD 3 0)]
  else
    joinDots [natToChars (octs.getD 0 0), natToChars (octs.getD 1 0),
      natToChars (octs.getD 2 0 * 256 + octs.getD 3 0)]

/-- The Octal line's string (line 99): each octet base-8, `0`-prefixed iff it
has more than one octal digit (iff the octet is at least 8). -/
def octalRender (octs : List Nat) : List Char :=
  joinDots (octs.map (fun x => if 8 ≤ x then '0' :: octChars x else octChars x))

/-- The labelled lines printed by `convert_ipv4` on a valid address (lines
74-100), as (label, value) pairs in print order; the `:18` column padding of
the labels is abstracted away. -/
def convertLines (l : List Char) : List (String × String) :=
  let octs := (splitOnDot l).map natOfChars
  ("Standard IPv4", ⟨l⟩) ::
  ("32-bit decimal", ⟨natToChars (ofOctets octs)⟩) ::
  ("32-bit hex", ⟨'0' :: 'x' :: hex8 (ofOctets octs)⟩) ::
  ("IPv6 mapped", ⟨':' :: ':' :: 'f' :: 'f' :: 'f' :: 'f' :: ':' :: renderQuad octs⟩) ::
  ((if truncatedRepr octs ≠ l then [("Truncated", (⟨truncatedRepr octs⟩ : String))] else []) ++
   (if 1 ≤ octs.getD 2 0 ∨ 1 ≤ octs.getD 3 0 then
      [("Overflow/truncate", (⟨overflowRepr octs⟩ : String))] else []) ++
   [("Octal", (⟨octalRender octs⟩ : String))])

/-- `convert_ipv4` (lines 67-103): validate, then emit all representation
lines; on an invalid address, the single error line, with no other output. -/
def convert_ipv4 (s : String) : Except String (List (String × String)) :=
  if validIPv4 s.data then .ok (convertLines s.data)
  else .error ("Error: Invalid IPv4 address '" ++ s ++ "'")

/-- The parse-failure error line of `__main__` (line 118). -/
def couldNotParseMsg (input : String) : String :=
  "Error: Could not parse '" ++ input ++ "' as any known IP format"

/-- One printed line (label and value joined; column padding abstracted). -/
def fmtLine (p : String × String) : String := p.1 ++ ": " ++ p.2

/-- The `__main__` pipeline (lines 113-118) for one input: the list of output
lines.  `if parsed_ip:` is Python truthiness, so an empty returned string also
reports the parse error.  An uncaught exception (which aborts the process
with a traceback) is modelled as no output lines. -/
def mainOutput (input : String) : List String :=
  match parse_input input with
  | .ok s =>
    if s = "" then [couldNotParseMsg input]
    else
      match convert_ipv4 s with
      | .ok ls => ls.map fmtLine
      | .error e => [e]
  | .noMatch => [couldNotParseMsg input]
  | .exc => []

/-! Helper lemmas: the stages of `parse_input` on digit/dot strings. -/

theorem not_isWhitespace_of_digitOrDot {c : Char} (h : digitOrDot c = true) :
    c.isWhitespace = false := by
  rw [digitOrDot, Bool.or_eq_true] at h
  rcases h with h | h
  · by_contra hws
    rw [Bool.not_eq_false, Char.isWhitespace] at hws
    simp only [Bool.or_eq_true, decide_eq_true_eq] at hws
    rcases hws with ((rfl | rfl) | rfl) | rfl <;> exact absurd h (by decide)
  · rw [beq_iff_eq] at h
    subst h
    decide

theorem dropWhile_eq_self_of_not {p : Char → Bool} :
    ∀ {l : List Char}, (∀ c ∈ l, p c = false) → l.dropWhile p = l := by
  intro l h
  cases l with
  | nil => rfl
  | cons c cs =>
    rw [List.dropWhile_cons, h c (List.mem_cons_self _ _)]
    simp

theorem pyStrip_eq_self {l : List Char} (h : ∀ c ∈ l, digitOrDot c = true) :
    pyStrip l = l := by
  have hws : ∀ c ∈ l, c.isWhitespace = false :=
    fun c hc => not_isWhitespace_of_digitOrDot (h c hc)
  rw [pyStrip, dropWhile_eq_self_of_not hws,
    dropWhile_eq_self_of_not (fun c hc => hws c (List.mem_reverse.mp hc)),
    List.reverse_reverse]

theorem digitOrDot_of_parts {l : List Char} {ps : List (List Char)}
    (hsplit : splitOnDot l = ps) (hps : ∀ p ∈ ps, ∀ c ∈ p, c.isDigit = true) :
    ∀ c ∈ l, digitOrDot c = true := by
  intro c hc
  have hl : l = joinDots ps := by rw [← hsplit, join_split]
  rw [hl] at hc
  rcases mem_joinDots hc with rfl | ⟨p, hp, hcp⟩
  · rfl
  · rw [digitOrDot, hps p hp c hcp, Bool.true_or]

theorem startsWith0x_eq_false {l : List Char} (h : ∀ c ∈ l, digitOrDot c = true) :
    startsWith0x l = false := by
  rw [startsWith0x, decide_eq_false_iff_not]
  intro htake
  have hx : 'x' ∈ l.take 2 := by rw [htake]; simp
  have := h 'x' (List.take_subset 2 l hx)
  exact absurd this (by decide)

theorem startsWithMapped_eq_false {l : List Char} (h : ∀ c ∈ l, digitOrDot c = true) :
    startsWithMapped l = false := by
  rw [startsWithMapped, decide_eq_false_iff_not]
  intro htake
  have hx : ':' ∈ l.take 7 := by rw [htake]; simp
  have := h ':' (List.take_subset 7 l hx)
  exact absurd this (by decide)

theorem isDigitPart_eq_false_of_dot {l : List Char} (h : '.' ∈ l) :
    isDigitPart l = false := by
  rw [isDigitPart, Bool.and_eq_false_iff]
  right
  rw [← Bool.not_eq_true, List.all_eq_true]
  intro hall
  exact absurd (hall '.' h) (by decide)

theorem isDigitPart_natToChars (n : Nat) : isDigitPart (natToChars n) = true := by
  rw [isDigitPart, Bool.and_eq_true]
  constructor
  · cases hnc : natToChars n with
    | nil => exact absurd hnc (renderBase_ne_nil (b := 10) (by norm_num) n)
    | cons a t => simp
  · rw [List.all_eq_true]
    exact fun c hc => isDigit_of_mem_renderBase (by norm_num) (by norm_num) hc

theorem natToChars_nodot (n : Nat) : ∀ c ∈ natToChars n, c ≠ '.' :=
  fun c hc => ne_dot_of_isDigit (isDigit_of_mem_renderBase (by norm_num) (by norm_num) hc)

theorem validOctet_natToChars {n : Nat} (h : n ≤ 255) : validOctet (natToChars n) = true := by
  rw [validOctet]
  simp only [Bool.and_eq_true, Bool.or_eq_true, decide_eq_true_eq]
  refine ⟨⟨⟨isDigitPart_natToChars n, natToChars_length_le h⟩, ?_⟩, ?_⟩
  · by_cases h1 : (natToChars n).length ≤ 1
    · left; exact h1
    · right
      rw [Bool.not_eq_true', beq_eq_false_iff_ne]
      have h0 : n ≠ 0 := by
        intro h0
        rw [h0] at h1
        exact h1 (by rw [natToChars, renderBase]; simp)
      have := natToChars_headD_ne_zero h0
      cases hnc : natToChars n with
      | nil => exact absurd hnc (renderBase_ne_nil (b := 10) (by norm_num) n)
      | cons a t => rw [hnc] at this; simpa using this
  · rw [natOfChars_natToChars]; exact h

/-- `splitOnDot` of a rendered dotted quad recovers the four numerals. -/
theorem splitOnDot_renderQuad (xs : List Nat) (hne : xs ≠ []) :
    splitOnDot (renderQuad xs) = xs.map natToChars := by
  rw [renderQuad]
  refine split_join _ ?_ ?_
  · simp [hne]
  · intro p hp c hc
    rw [List.mem_map] at hp
    obtain ⟨n, _, rfl⟩ := hp
    exact natToChars_nodot n c hc

theorem validIPv4_renderQuad {a b c d : Nat} (ha : a ≤ 255) (hb : b ≤ 255)
    (hc : c ≤ 255) (hd : d ≤ 255) : validIPv4 (renderQuad [a, b, c, d]) = true := by
  rw [validIPv4, splitOnDot_renderQuad _ (by simp)]
  simp [validOctet_natToChars ha, validOctet_natToChars hb,
    validOctet_natToChars hc, validOctet_natToChars hd]

theorem octetsOf_small {a : Nat} (h : a ≤ 255) : octetsOf a = [0, 0, 0, a] := by
  rw [octetsOf]
  have h1 : a / 16777216 = 0 := Nat.div_eq_of_lt (by omega)
  have h2 : a / 65536 = 0 := Nat.div_eq_of_lt (by omega)
  have h3 : a / 256 = 0 := Nat.div_eq_of_lt (by omega)
  have h4 : a % 256 = a := Nat.mod_eq_of_lt (by omega)
  rw [h1, h2, h3, h4]

/-- On an all-digit/dot string that neither rule 1 (standard) nor rule 2
(pure decimal) claims, `parse_input` reaches rule 5 (rules 3 and 4 need an
`x` or `:` character). -/
theorem parse_to_overflowStage (s : String) (hdd : ∀ c ∈ s.data, digitOrDot c = true)
    (hstd : matchStd4 s.data = false) (hdig : isDigitPart s.data = false) :
    parse_input s = fromOverflowStage s.data := by
  simp [parse_input, pyStrip_eq_self hdd, fromStdStage, hstd, fromDecimalStage, hdig,
    fromHexStage, startsWith0x_eq_false hdd, fromMappedStage, startsWithMapped_eq_false hdd]

/-- The expander's invalid-address error line is never equal to the
detector-failure error line of `__main__`, whatever strings they name. -/
theorem invalidMsg_ne_couldNotParseMsg (x y : String) :
    ("Error: Invalid IPv4 address '" ++ x ++ "'") ≠ couldNotParseMsg y := by
  intro h
  have hd := congrArg String.data h
  rw [couldNotParseMsg] at hd
  simp only [String.data_append] at hd
  have h7 := congrArg (fun l => l[7]?) hd
  simp only [List.cons_append, List.nil_append, List.getElem?_cons_succ,
    List.getElem?_cons_zero] at h7
  exact absurd h7 (by decide)

theorem digits_of_matchStd4 {l : List Char} (h : matchStd4 l = true) :
    ∀ c ∈ l, digitOrDot c = true := by
  rw [matchStd4, Bool.and_eq_true, List.all_eq_true] at h
  refine digitOrDot_of_parts rfl ?_
  intro p hp c hc
  have := h.2 p hp
  rw [Bool.and_eq_true, isDigitPart, Bool.and_eq_true, List.all_eq_true] at this
  exact this.1.2 c hc

/-- Claim C1, counterexample: the detector does not map `"010.2.3.4"` to
`"8.2.3.4"`; rule 1's pattern `^\d{1,3}(\.\d{1,3}){3}$` matches `"010"` and
returns the input unchanged before the octal rule can run. -/
theorem C1_counterexample :
    parse_input "010.2.3.4" = ParseResult.ok "010.2.3.4" ∧
    parse_input "010.2.3.4" ≠ ParseResult.ok "8.2.3.4" := by
  constructor
  · decide
  · decide

/-- Claim C1, amended: rule 1 (Standard) claims `"010.2.3.4"` first, so
`parse_input` returns it unchanged; the octal rule's per-group
transformation, had it been reached, would indeed map it to `"8.2.3.4"`
(`010`₈ = `8`₁₀). -/
theorem C1_theorem :
    parse_input "010.2.3.4" = ParseResult.ok "010.2.3.4" ∧
    octalRuleConv "010.2.3.4".data = some "8.2.3.4".data := by
  constructor
  · decide
  · decide

/-- Claim C2, counterexample: rule 1 passes `"999.1.1.1"` through as a
non-NoMatch result, and that string is not a valid dotted quad. -/
theorem C2_counterexample :
    parse_input "999.1.1.1" = ParseResult.ok "999.1.1.1" ∧
    validIPv4 "999.1.1.1".data = false := by
  constructor
  · decide
  · decide

/-- Claim C2, amended: not every non-NoMatch detector result is a valid
CanonicalAddress (rule 1 passes `"999.1.1.1"` through unvalidated), but
every non-NoMatch result either is a valid dotted quad of four octets in
[0,255] or is rejected at the expansion stage with the InvalidAddress error
naming it, so no invalid candidate ever produces representation output. -/
theorem C2_theorem (s r : String) (_hp : parse_input s = ParseResult.ok r) :
    validIPv4 r.data = true ∨
      convert_ipv4 r = Except.error ("Error: Invalid IPv4 address '" ++ r ++ "'") := by
  by_cases h : validIPv4 r.data = true
  · exact Or.inl h
  · right
    rw [convert_ipv4, if_neg h]

/-- Witness for C2: the five-group string `"1.2.3.4.5"` is returned by the
detector (octal fallback) and rejected at expansion. -/
theorem C2_witness :
    validIPv4 ("1.2.3.4.5" : String).data = true ∨
      convert_ipv4 "1.2.3.4.5" =
        Except.error ("Error: Invalid IPv4 address '" ++ "1.2.3.4.5" ++ "'") :=
  C2_theorem "1.2.3.4.5" "1.2.3.4.5" (by decide)

/-- Claim C4 (confirmed): an input matching rule 1's dotted-quad pattern that
is not a valid address is passed through unmodified by the detector, then
rejected at the expansion stage with the InvalidAddress error naming it; the
pipeline's whole output is that single error line (no partial representation
output), and the line differs from the UnrecognizedFormat error line. -/
theorem C4_theorem (s : String) (hstd : matchStd4 s.data = true)
    (hinv : validIPv4 s.data = false) :
    parse_input s = ParseResult.ok s ∧
    convert_ipv4 s = Except.error ("Error: Invalid IPv4 address '" ++ s ++ "'") ∧
    mainOutput s = ["Error: Invalid IPv4 address '" ++ s ++ "'"] ∧
    ("Error: Invalid IPv4 address '" ++ s ++ "'") ≠ couldNotParseMsg s := by
  have hdd := digits_of_matchStd4 hstd
  have h1 : parse_input s = ParseResult.ok s := by
    rw [parse_input, pyStrip_eq_self hdd, fromStdStage, if_pos hstd]
  have h2 : convert_ipv4 s = Except.error ("Error: Invalid IPv4 address '" ++ s ++ "'") := by
    rw [convert_ipv4, if_neg (by rw [hinv]; exact Bool.false_ne_true)]
  have hne : s ≠ "" := by
    intro he
    rw [he] at hstd
    exact absurd hstd (by decide)
  refine ⟨h1, h2, ?_, invalidMsg_ne_couldNotParseMsg s s⟩
  rw [mainOutput, h1]
  simp only [if_neg hne, h2]

/-- Witness for C4 at the spec's example `"999.1.1.1"`. -/
theorem C4_witness :
    parse_input "999.1.1.1" = ParseResult.ok "999.1.1.1" ∧
    convert_ipv4 "999.1.1.1" =
      Except.error ("Error: Invalid IPv4 address '" ++ "999.1.1.1" ++ "'") ∧
    mainOutput "999.1.1.1" = ["Error: Invalid IPv4 address '" ++ "999.1.1.1" ++ "'"] ∧
    ("Error: Invalid IPv4 address '" ++ ("999.1.1.1" : String) ++ "'") ≠
      couldNotParseMsg "999.1.1.1" :=
  C4_theorem "999.1.1.1" (by decide) (by decide)

theorem isDigitPart_mem {p : List Char} (h : isDigitPart p = true) :
    ∀ c ∈ p, c.isDigit = true := by
  rw [isDigitPart, Bool.and_eq_true, List.all_eq_true] at h
  exact h.2

theorem isDigitPart_ne_nil {p : List Char} (h : isDigitPart p = true) : p ≠ [] := by
  rw [isDigitPart, Bool.and_eq_true] at h
  have := h.1
  intro he
  rw [he] at this
  exact absurd this (by decide)

theorem digitOrDot_renderQuad (xs : List Nat) : ∀ c ∈ renderQuad xs, digitOrDot c = true := by
  intro c hc
  rcases mem_joinDots hc with rfl | ⟨p, hp, hcp⟩
  · rfl
  · rw [List.mem_map] at hp
    obtain ⟨n, _, rfl⟩ := hp
    rw [digitOrDot, isDigit_of_mem_renderBase (by norm_num) (by norm_num) hcp, Bool.true_or]

theorem matchStd4_renderQuad {a b c d : Nat} (ha : a ≤ 255) (hb : b ≤ 255)
    (hc : c ≤ 255) (hd : d ≤ 255) : matchStd4 (renderQuad [a, b, c, d]) = true := by
  rw [matchStd4, splitOnDot_renderQuad _ (by simp)]
  simp [isDigitPart_natToChars, natToChars_length_le ha, natToChars_length_le hb,
    natToChars_length_le hc, natToChars_length_le hd]

/-- Claim C7 (confirmed): for a canonically rendered dotted quad with all
octets in [0,255], the expander accepts it, its Standard line is the input
string unchanged, and re-parsing that string through the detector returns it
unchanged (rule 1), so expand-then-reparse is idempotent. -/
theorem C7_theorem (a b c d : Nat) (ha : a ≤ 255) (hb : b ≤ 255) (hc : c ≤ 255)
    (hd : d ≤ 255) :
    convert_ipv4 ⟨renderQuad [a, b, c, d]⟩ =
      Except.ok (convertLines (renderQuad [a, b, c, d])) ∧
    (convertLines (renderQuad [a, b, c, d])).head? =
      some ("Standard IPv4", ⟨renderQuad [a, b, c, d]⟩) ∧
    parse_input ⟨renderQuad [a, b, c, d]⟩ = ParseResult.ok ⟨renderQuad [a, b, c, d]⟩ := by
  have hvalid : validIPv4 ((⟨renderQuad [a, b, c, d]⟩ : String)).data = true :=
    validIPv4_renderQuad ha hb hc hd
  refine ⟨?_, rfl, ?_⟩
  · rw [convert_ipv4, if_pos hvalid]
  · rw [parse_input, pyStrip_eq_self (digitOrDot_renderQuad [a, b, c, d]),
      fromStdStage, if_pos (matchStd4_renderQuad ha hb hc hd)]

/-- Witness for C7 at octets 10.0.0.1. -/
theorem C7_witness :
    convert_ipv4 ⟨renderQuad [10, 0, 0, 1]⟩ =
      Except.ok (convertLines (renderQuad [10, 0, 0, 1])) ∧
    (convertLines (renderQuad [10, 0, 0, 1])).head? =
      some ("Standard IPv4", ⟨renderQuad [10, 0, 0, 1]⟩) ∧
    parse_input ⟨renderQuad [10, 0, 0, 1]⟩ = ParseResult.ok ⟨renderQuad [10, 0, 0, 1]⟩ :=
  C7_theorem 10 0 0 1 (by decide) (by decide) (by decide) (by decide)

theorem parse_digit_three_groups (s : String) (p0 p1 p2 : List Char)
    (hsplit : splitOnDot s.data = [p0, p1, p2])
    (h0 : isDigitPart p0 = true) (h1 : isDigitPart p1 = true) (h2 : isDigitPart p2 = true) :
    (255 < natOfChars p2 →
      parse_input s = ParseResult.ok
        ⟨renderQuad [natOfChars p0, natOfChars p1, natOfChars p2 / 256,
          natOfChars p2 % 256]⟩) ∧
    (natOfChars p2 ≤ 255 → parse_input s = fromTruncStage s.data) := by
  have hjoin : s.data = joinDots [p0, p1, p2] := by
    rw [← hsplit, join_split]
  have hdd : ∀ c ∈ s.data, digitOrDot c = true := by
    refine digitOrDot_of_parts hsplit ?_
    intro p hp c hc
    rcases List.mem_cons.mp hp with rfl | hp'
    · exact isDigitPart_mem h0 c hc
    · rcases List.mem_cons.mp hp' with rfl | hp''
      · exact isDigitPart_mem h1 c hc
      · rcases List.mem_cons.mp hp'' with rfl | h
        · exact isDigitPart_mem h2 c hc
        · simp at h
  have hstd : matchStd4 s.data = false := by
    rw [matchStd4, hsplit]
    simp
  have hdig : isDigitPart s.data = false := by
    refine isDigitPart_eq_false_of_dot ?_
    rw [hjoin]
    exact dot_mem_joinDots _ _ _
  have hparse := parse_to_overflowStage s hdd hstd hdig
  have hm3 : matchDotted3 s.data = true := by
    rw [matchDotted3, hsplit]
    simp [h0, h1, h2]
  constructor
  · intro hgt
    rw [hparse, fromOverflowStage, if_pos hm3, hsplit]
    simp only [List.getD_cons_zero, List.getD_cons_succ]
    rw [if_pos hgt]
  · intro hle
    rw [hparse, fromOverflowStage, if_pos hm3, hsplit]
    simp only [List.getD_cons_zero, List.getD_cons_succ]
    rw [if_neg (by omega)]

/-- Claim C5 (confirmed): a three-group all-numeric input whose third group
exceeds 255 is handled by the overflow rule, which returns the quad
`[g1, g2, g3 / 256, g3 % 256]`; `"10.0.256"` gives `"10.0.1.0"`; and when the
third group is at most 255 the rule does not fire and the input falls
through to the truncated-rule stage. -/
theorem C5_theorem :
    (∀ (s : String) (p0 p1 p2 : List Char),
      splitOnDot s.data = [p0, p1, p2] →
      isDigitPart p0 = true → isDigitPart p1 = true → isDigitPart p2 = true →
      (255 < natOfChars p2 →
        parse_input s = ParseResult.ok
          ⟨renderQuad [natOfChars p0, natOfChars p1, natOfChars p2 / 256,
            natOfChars p2 % 256]⟩) ∧
      (natOfChars p2 ≤ 255 → parse_input s = fromTruncStage s.data)) ∧
    parse_input "10.0.256" = ParseResult.ok "10.0.1.0" := by
  constructor
  · intro s p0 p1 p2 hsplit h0 h1 h2
    exact parse_digit_three_groups s p0 p1 p2 hsplit h0 h1 h2
  · decide

/-- Witness for C5 at `"300.4.777"` (`777 = 3 * 256 + 9`). -/
theorem C5_witness :
    (255 < natOfChars "777".data →
      parse_input "300.4.777" = ParseResult.ok
        ⟨renderQuad [natOfChars "300".data, natOfChars "4".data,
          natOfChars "777".data / 256, natOfChars "777".data % 256]⟩) ∧
    (natOfChars "777".data ≤ 255 →
      parse_input "300.4.777" = fromTruncStage ("300.4.777" : String).data) :=
  C5_theorem.1 "300.4.777" "300".data "4".data "777".data (by decide) (by decide)
    (by decide) (by decide)

theorem parse_digit_two_groups (s : String) (p q : List Char)
    (hsplit : splitOnDot s.data = [p, q])
    (hp : isDigitPart p = true) (hq : isDigitPart q = true) :
    (natOfChars q ≤ 255 →
      parse_input s = ParseResult.ok ⟨renderQuad [natOfChars p, 0, 0, natOfChars q]⟩) ∧
    (255 < natOfChars q →
      parse_input s = ParseResult.ok
        ⟨renderQuad [natOfChars p, 0, natOfChars q / 256, natOfChars q % 256]⟩) := by
  have hjoin : s.data = joinDots [p, q] := by
    rw [← hsplit, join_split]
  have hdd : ∀ c ∈ s.data, digitOrDot c = true := by
    refine digitOrDot_of_parts hsplit ?_
    intro r hr c hc
    rcases List.mem_cons.mp hr with rfl | hr'
    · exact isDigitPart_mem hp c hc
    · rcases List.mem_cons.mp hr' with rfl | h
      · exact isDigitPart_mem hq c hc
      · simp at h
  have hstd : matchStd4 s.data = false := by
    rw [matchStd4, hsplit]
    simp
  have hdig : isDigitPart s.data = false := by
    refine isDigitPart_eq_false_of_dot ?_
    rw [hjoin]
    exact dot_mem_joinDots _ _ _
  have hparse := parse_to_overflowStage s hdd hstd hdig
  have hm3 : matchDotted3 s.data = false := by
    rw [matchDotted3, hsplit]
    simp
  have hm23 : matchDotted23 s.data = true := by
    rw [matchDotted23, hsplit]
    simp [hp, hq]
  have hlen2 : ((splitOnDot s.data).length == 2) = true := by
    rw [hsplit]
    simp
  constructor
  · intro hle
    rw [hparse, fromOverflowStage, if_neg (by rw [hm3]; exact Bool.false_ne_true),
      fromTruncStage, if_pos hm23, if_pos hlen2, hsplit]
    simp only [List.headD_cons, List.getD_cons_succ, List.getD_cons_zero]
    rw [if_pos hle]
  · intro hgt
    rw [hparse, fromOverflowStage, if_neg (by rw [hm3]; exact Bool.false_ne_true),
      fromTruncStage, if_pos hm23, if_pos hlen2, hsplit]
    simp only [List.headD_cons, List.getD_cons_succ, List.getD_cons_zero]
    rw [if_neg (by omega)]

/-- Claim C6 (confirmed): a two-group all-numeric input is handled by the
truncated rule: `g1.g2` becomes `[g1, 0, 0, g2]` when `g2 ≤ 255` and
`[g1, 0, g2 / 256, g2 % 256]` when `g2 > 255`; `"10.5"` gives `"10.0.0.5"`. -/
theorem C6_theorem :
    (∀ (s : String) (p q : List Char),
      splitOnDot s.data = [p, q] →
      isDigitPart p = true → isDigitPart q = true →
      (natOfChars q ≤ 255 →
        parse_input s = ParseResult.ok ⟨renderQuad [natOfChars p, 0, 0, natOfChars q]⟩) ∧
      (255 < natOfChars q →
        parse_input s = ParseResult.ok
          ⟨renderQuad [natOfChars p, 0, natOfChars q / 256, natOfChars q % 256]⟩)) ∧
    parse_input "10.5" = ParseResult.ok "10.0.0.5" := by
  constructor
  · intro s p q hsplit hp hq
    exact parse_digit_two_groups s p q hsplit hp hq
  · decide

/-- Witness for C6 at `"1.300"` (`300 = 1 * 256 + 44`). -/
theorem C6_witness :
    (natOfChars "300".data ≤ 255 →
      parse_input "1.300" = ParseResult.ok
        ⟨renderQuad [natOfChars "1".data, 0, 0, natOfChars "300".data]⟩) ∧
    (255 < natOfChars "300".data →
      parse_input "1.300" = ParseResult.ok
        ⟨renderQuad [natOfChars "1".data, 0, natOfChars "300".data / 256,
          natOfChars "300".data % 256]⟩) :=
  C6_theorem.1 "1.300" "1".data "300".data (by decide) (by decide) (by decide)

theorem truncatedParts_prefixOf : ∀ l : List Nat, truncatedParts l <+: l := by
  intro l
  induction l with
  | nil => exact List.prefix_refl _
  | cons x xs ih =>
    rw [truncatedParts]
    split_ifs with h
    · exact ⟨xs, rfl⟩
    · exact (List.prefix_cons_inj x).mpr ih

theorem truncatedParts_suffix_zero :
    ∀ l : List Nat, ((l.drop (truncatedParts l).length).all (· == 0)) = true := by
  intro l
  induction l with
  | nil => rfl
  | cons x xs ih =>
    rw [truncatedParts]
    split_ifs with h
    · simpa using h
    · simpa using ih

theorem truncatedParts_minimal :
    ∀ (l : List Nat) (n : Nat), 1 ≤ n → ((l.drop n).all (· == 0)) = true →
      (truncatedParts l).length ≤ n := by
  intro l
  induction l with
  | nil => intro n _ _; simp [truncatedParts]
  | cons x xs ih =>
    intro n hn hdrop
    rw [truncatedParts]
    split_ifs with h
    · simpa using hn
    · obtain ⟨m, rfl⟩ : ∃ m, n = m + 1 := ⟨n - 1, by omega⟩
      rw [List.drop_succ_cons] at hdrop
      have hm : 1 ≤ m := by
        by_contra hm0
        have : m = 0 := by omega
        subst this
        rw [List.drop_zero] at hdrop
        exact absurd hdrop (by simpa using h)
      have := ih m hm hdrop
      simpa using this

theorem truncated_line_ne_standard (s : String) (ls : List (String × String)) (v : String)
    (hok : convert_ipv4 s = Except.ok ls) (hmem : ("Truncated", v) ∈ ls) : v ≠ s := by
  by_cases hval : validIPv4 s.data = true
  · rw [convert_ipv4, if_pos hval] at hok
    have hls : ls = convertLines s.data := by
      cases hok
      rfl
    subst hls
    simp only [convertLines] at hmem
    rcases List.mem_cons.mp hmem with h1 | hmem
    · simp at h1
    rcases List.mem_cons.mp hmem with h1 | hmem
    · simp at h1
    rcases List.mem_cons.mp hmem with h1 | hmem
    · simp at h1
    rcases List.mem_cons.mp hmem with h1 | hmem
    · simp at h1
    rcases List.mem_append.mp hmem with hmem | hoc
    · rcases List.mem_append.mp hmem with htr | hov
      · by_cases hc :
          truncatedRepr ((splitOnDot s.data).map natOfChars) ≠ s.data
        · rw [if_pos hc] at htr
          have h1 := List.mem_singleton.mp htr
          have hv : v = ⟨truncatedRepr ((splitOnDot s.data).map natOfChars)⟩ :=
            congrArg Prod.snd h1
          intro heq
          rw [heq] at hv
          exact hc (congrArg String.data hv.symm)
        · rw [if_neg hc] at htr
          exact absurd htr (List.not_mem_nil _)
      · by_cases hc : 1 ≤ ((splitOnDot s.data).map natOfChars).getD 2 0 ∨
          1 ≤ ((splitOnDot s.data).map natOfChars).getD 3 0
        · rw [if_pos hc] at hov
          have h1 := List.mem_singleton.mp hov
          simp at h1
        · rw [if_neg hc] at hov
          exact absurd hov (List.not_mem_nil _)
    · have h1 := List.mem_singleton.mp hoc
      simp at h1
  · rw [convert_ipv4, if_neg hval] at hok
    exact absurd hok (by simp)

/-- Claim C9 (confirmed): the Truncated representation keeps the shortest
(nonempty — the loop always appends the first octet before testing) prefix of
the octets whose remaining suffix is all zeros, joined with dots, and a
Truncated line is emitted only when its string differs from the Standard
string: `1.2.0.0` truncates to `"1.2"`, while `1.0.0.1` yields no Truncated
line. -/
theorem C9_theorem :
    (∀ l : List Nat,
      truncatedParts l <+: l ∧
      ((l.drop (truncatedParts l).length).all (· == 0)) = true ∧
      ∀ n, 1 ≤ n → ((l.drop n).all (· == 0)) = true → (truncatedParts l).length ≤ n) ∧
    (∀ (s : String) (ls : List (String × String)) (v : String),
      convert_ipv4 s = Except.ok ls → ("Truncated", v) ∈ ls → v ≠ s) ∧
    convert_ipv4 "1.2.0.0" = Except.ok
      [("Standard IPv4", "1.2.0.0"), ("32-bit decimal", "16908288"),
       ("32-bit hex", "0x01020000"), ("IPv6 mapped", "::ffff:1.2.0.0"),
       ("Truncated", "1.2"), ("Octal", "1.2.0.0")] ∧
    convert_ipv4 "1.0.0.1" = Except.ok
      [("Standard IPv4", "1.0.0.1"), ("32-bit decimal", "16777217"),
       ("32-bit hex", "0x01000001"), ("IPv6 mapped", "::ffff:1.0.0.1"),
       ("Overflow/truncate", "1.1"), ("Octal", "1.0.0.1")] ∧
    "Truncated" ∉
      ([("Standard IPv4", "1.0.0.1"), ("32-bit decimal", "16777217"),
        ("32-bit hex", "0x01000001"), ("IPv6 mapped", "::ffff:1.0.0.1"),
        ("Overflow/truncate", "1.1"), ("Octal", "1.0.0.1")] :
        List (String × String)).map Prod.fst := by
  refine ⟨?_, truncated_line_ne_standard, ?_, ?_, ?_⟩
  · intro l
    exact ⟨truncatedParts_prefixOf l, truncatedParts_suffix_zero l, truncatedParts_minimal l⟩
  · rfl
  · rfl
  · decide

/-- Witness for C9: the shortest-prefix facts at `[1, 2, 0, 0]` and the
emission implication at the `"1.2.0.0"` conversion. -/
theorem C9_witness :
    (truncatedParts [1, 2, 0, 0] <+: [1, 2, 0, 0]) ∧
    (truncatedParts [1, 2, 0, 0]).length ≤ 2 ∧
    ("1.2" : String) ≠ "1.2.0.0" :=
  ⟨(C9_theorem.1 [1, 2, 0, 0]).1,
   (C9_theorem.1 [1, 2, 0, 0]).2.2 2 (by decide) (by decide),
   C9_theorem.2.1 "1.2.0.0"
     [("Standard IPv4", "1.2.0.0"), ("32-bit decimal", "16908288"),
      ("32-bit hex", "0x01020000"), ("IPv6 mapped", "::ffff:1.2.0.0"),
      ("Truncated", "1.2"), ("Octal", "1.2.0.0")] "1.2"
     (by rfl) (by decide)⟩

theorem foldBase_cons_zero (b : Nat) (l : List Char) :
    foldBase b ('0' :: l) = foldBase b l := by
  rw [foldBase, foldBase, List.foldl_cons]
  congr 1
  show 0 * b + chDigit '0' = 0
  have h : chDigit '0' = 0 := rfl
  rw [h]
  simp

theorem pyIntOct_zero_octChars (x : Nat) : pyIntOct ('0' :: octChars x) = some x := by
  rw [pyIntOct, if_pos]
  · rw [foldBase_cons_zero]
    exact congrArg some (foldBase_renderBase (by norm_num) (by norm_num) x)
  · rw [Bool.and_eq_true]
    refine ⟨by simp, ?_⟩
    rw [List.all_cons, Bool.and_eq_true]
    refine ⟨by decide, ?_⟩
    rw [List.all_eq_true]
    intro c hc
    obtain ⟨d, hd, rfl⟩ := mem_renderBase (by norm_num) hc
    exact isOctDigitCh_digitCh d hd

theorem octalPartConv_group (x : Nat) :
    octalPartConv (if 8 ≤ x then '0' :: octChars x else octChars x) = some (natToChars x) := by
  by_cases h8 : 8 ≤ x
  · rw [if_pos h8, octalPartConv, if_pos, pyIntOct_zero_octChars]
    · rfl
    rw [Bool.and_eq_true]
    refine ⟨by simp, ?_⟩
    rw [decide_eq_true_eq, List.length_cons]
    have := renderBase_ne_nil (b := 8) (by norm_num) x
    have : 0 < (octChars x).length := List.length_pos.mpr this
    omega
  · rw [if_neg h8]
    have hx : octChars x = [digitCh x] := renderBase_singleton (by norm_num) (by omega)
    have hx10 : natToChars x = [digitCh x] := renderBase_singleton (by norm_num) (by omega)
    rw [hx, hx10, octalPartConv]
    by_cases h0 : x = 0
    · subst h0
      decide
    · rw [if_neg]
      rw [Bool.and_eq_true, not_and]
      intro hbeq
      rw [List.headD_cons, beq_iff_eq] at hbeq
      exact absurd hbeq (digitCh_ne_zero x h0 (by omega))

theorem splitOnDot_octalRender (xs : List Nat) (hne : xs ≠ []) :
    splitOnDot (octalRender xs) =
      xs.map (fun x => if 8 ≤ x then '0' :: octChars x else octChars x) := by
  rw [octalRender]
  refine split_join _ (by simp [hne]) ?_
  intro p hp c hc
  rw [List.mem_map] at hp
  obtain ⟨n, _, rfl⟩ := hp
  by_cases h8 : 8 ≤ n
  · rw [if_pos h8] at hc
    rcases List.mem_cons.mp hc with rfl | hc'
    · decide
    · exact ne_dot_of_isDigit (isDigit_of_mem_renderBase (by norm_num) (by norm_num) hc')
  · rw [if_neg h8] at hc
    exact ne_dot_of_isDigit (isDigit_of_mem_renderBase (by norm_num) (by norm_num) hc)

theorem octalPartsConv_map (xs : List Nat) :
    octalPartsConv (xs.map (fun x => if 8 ≤ x then '0' :: octChars x else octChars x)) =
      some (xs.map natToChars) := by
  induction xs with
  | nil => rfl
  | cons x t ih =>
    rw [List.map_cons, octalPartsConv, octalPartConv_group x, ih, List.map_cons]

/-- Claim C8 (confirmed): the Octal representation of a canonical address —
each octet base-8, `0`-prefixed exactly when the octet is at least 8 — maps
back to the canonical dotted quad under the octal rule's per-group
transformation, whenever at least one octet is leading-zero eligible. -/
theorem C8_theorem (a b c d : Nat) (_ha : a ≤ 255) (_hb : b ≤ 255) (_hc : c ≤ 255)
    (_hd : d ≤ 255) (_hex : 8 ≤ a ∨ 8 ≤ b ∨ 8 ≤ c ∨ 8 ≤ d) :
    octalRuleConv (octalRender [a, b, c, d]) = some (renderQuad [a, b, c, d]) := by
  rw [octalRuleConv, splitOnDot_octalRender [a, b, c, d] (by simp),
    octalPartsConv_map [a, b, c, d]]
  rfl

/-- Witness for C8 at octets 8.2.3.4 (octal rendering `010.2.3.4`). -/
theorem C8_witness :
    octalRuleConv (octalRender [8, 2, 3, 4]) = some (renderQuad [8, 2, 3, 4]) :=
  C8_theorem 8 2 3 4 (by decide) (by decide) (by decide) (by decide) (Or.inl (by decide))

theorem splitOnDot_nodot (l : List Char) (h : ∀ c ∈ l, c ≠ '.') : splitOnDot l = [l] := by
  have := splitOnDot_append_nodot l [] h
  simpa [splitOnDot] using this

theorem parse_single_group (s : String) (hdig : isDigitPart s.data = true)
    (hlt : natOfChars s.data < UINT32) :
    parse_input s = ParseResult.ok ⟨renderQuad (octetsOf (natOfChars s.data))⟩ := by
  have hmem := isDigitPart_mem hdig
  have hdd : ∀ c ∈ s.data, digitOrDot c = true := fun c hc => by
    rw [digitOrDot, hmem c hc, Bool.true_or]
  have hnodot : ∀ c ∈ s.data, c ≠ '.' := fun c hc => ne_dot_of_isDigit (hmem c hc)
  have hsplit : splitOnDot s.data = [s.data] := splitOnDot_nodot _ hnodot
  have hstd : matchStd4 s.data = false := by
    rw [matchStd4, hsplit]
    simp
  rw [parse_input, pyStrip_eq_self hdd, fromStdStage,
    if_neg (by rw [hstd]; exact Bool.false_ne_true),
    fromDecimalStage, if_pos hdig, if_pos hlt]

theorem truncStage_three_small (s : String) (p0 p1 p2 : List Char)
    (hsplit : splitOnDot s.data = [p0, p1, p2])
    (h0 : isDigitPart p0 = true) (h1 : isDigitPart p1 = true) (h2 : isDigitPart p2 = true)
    (hv0 : natOfChars p0 ≤ 255) (hv1 : natOfChars p1 ≤ 255) (hv2 : natOfChars p2 ≤ 255) :
    fromTruncStage s.data = ParseResult.ok ⟨joinDots [p0, p1, ['0'], p2]⟩ := by
  have hm23 : matchDotted23 s.data = true := by
    rw [matchDotted23, hsplit]
    simp [h0, h1, h2]
  rw [fromTruncStage, if_pos hm23, hsplit]
  rw [if_neg (by simp)]
  rw [if_pos (by simp [hv0, hv1, hv2])]
  rfl

/-- Where re-parsing sends a truncated prefix: rules 2/6 put the last
retained group into the final octet and zero-fill between. -/
def padLast : List Nat → List Nat
  | [x] => [0, 0, 0, x]
  | [x, y] => [x, 0, 0, y]
  | [x, y, z] => [x, y, 0, z]
  | other => other

/-- Claim C3, counterexample: the emitted Truncated form of `1.2.0.0` is
`"1.2"`, but re-parsing `"1.2"` through the detector yields `"1.0.0.2"`
(rule 6 sends the second group to the last octet), not the original. -/
theorem C3_counterexample :
    convert_ipv4 "1.2.0.0" = Except.ok
      [("Standard IPv4", "1.2.0.0"), ("32-bit decimal", "16908288"),
       ("32-bit hex", "0x01020000"), ("IPv6 mapped", "::ffff:1.2.0.0"),
       ("Truncated", "1.2"), ("Octal", "1.2.0.0")] ∧
    parse_input "1.2" = ParseResult.ok "1.0.0.2" ∧
    ("1.0.0.2" : String) ≠ "1.2.0.0" := by
  refine ⟨rfl, by decide, by decide⟩

/-- Claim C3, amended: when the Truncated representation of a canonical
address is emitted, re-parsing it does not return the original address but
its `padLast` redistribution — the retained prefix with the last retained
group moved to the final octet (`a ↦ 0.0.0.a`, `a.b ↦ a.0.0.b`,
`a.b.c ↦ a.b.0.c`); this equals the original only when every octet after the
first retained position is zero in the right places (e.g. `0.0.0.0`). -/
theorem C3_theorem (a b c d : Nat) (ha : a ≤ 255) (hb : b ≤ 255) (hc : c ≤ 255)
    (_hd : d ≤ 255) (hemit : truncatedRepr [a, b, c, d] ≠ renderQuad [a, b, c, d]) :
    parse_input ⟨truncatedRepr [a, b, c, d]⟩ =
      ParseResult.ok ⟨renderQuad (padLast (truncatedParts [a, b, c, d]))⟩ := by
  by_cases hd0 : d = 0
  · subst hd0
    by_cases hc0 : c = 0
    · subst hc0
      by_cases hb0 : b = 0
      · subst hb0
        have htp : truncatedParts [a, 0, 0, 0] = [a] := by
          rw [truncatedParts, if_pos (by decide)]
        have hrepr : truncatedRepr [a, 0, 0, 0] = natToChars a := by
          rw [truncatedRepr, htp]
          rfl
        rw [hrepr, htp]
        have h := parse_single_group ⟨natToChars a⟩ (isDigitPart_natToChars a)
          (by show natOfChars (natToChars a) < UINT32
              rw [natOfChars_natToChars, UINT32]
              omega)
        rw [h]
        show ParseResult.ok ⟨renderQuad (octetsOf (natOfChars (natToChars a)))⟩ =
          ParseResult.ok ⟨renderQuad [0, 0, 0, a]⟩
        rw [natOfChars_natToChars, octetsOf_small ha]
      · have htp : truncatedParts [a, b, 0, 0] = [a, b] := by
          rw [truncatedParts, if_neg (by simp [hb0]), truncatedParts, if_pos (by decide)]
        have hrepr : truncatedRepr [a, b, 0, 0] =
            joinDots [natToChars a, natToChars b] := by
          rw [truncatedRepr, htp]
          rfl
        rw [hrepr, htp]
        have hsplit : splitOnDot ((⟨joinDots [natToChars a, natToChars b]⟩ : String)).data =
            [natToChars a, natToChars b] := by
          show splitOnDot (joinDots [natToChars a, natToChars b]) = _
          refine split_join _ (by simp) ?_
          intro p hp c hcp
          rcases List.mem_cons.mp hp with rfl | hp'
          · exact natToChars_nodot a c hcp
          · rcases List.mem_cons.mp hp' with rfl | h
            · exact natToChars_nodot b c hcp
            · simp at h
        have h := (parse_digit_two_groups ⟨joinDots [natToChars a, natToChars b]⟩
          (natToChars a) (natToChars b) hsplit (isDigitPart_natToChars a)
          (isDigitPart_natToChars b)).1
          (by rw [natOfChars_natToChars]; exact hb)
        rw [natOfChars_natToChars, natOfChars_natToChars] at h
        exact h
    · have htp : truncatedParts [a, b, c, 0] = [a, b, c] := by
        rw [truncatedParts, if_neg (by simp [hc0]), truncatedParts, if_neg (by simp [hc0]),
          truncatedParts, if_pos (by decide)]
      have hrepr : truncatedRepr [a, b, c, 0] =
          joinDots [natToChars a, natToChars b, natToChars c] := by
        rw [truncatedRepr, htp]
        rfl
      rw [hrepr, htp]
      have hsplit : splitOnDot
          ((⟨joinDots [natToChars a, natToChars b, natToChars c]⟩ : String)).data =
          [natToChars a, natToChars b, natToChars c] := by
        show splitOnDot (joinDots [natToChars a, natToChars b, natToChars c]) = _
        refine split_join _ (by simp) ?_
        intro p hp x hxp
        rcases List.mem_cons.mp hp with rfl | hp'
        · exact natToChars_nodot a x hxp
        · rcases List.mem_cons.mp hp' with rfl | hp''
          · exact natToChars_nodot b x hxp
          · rcases List.mem_cons.mp hp'' with rfl | h
            · exact natToChars_nodot c x hxp
            · simp at h
      have h3 := (parse_digit_three_groups
        ⟨joinDots [natToChars a, natToChars b, natToChars c]⟩
        (natToChars a) (natToChars b) (natToChars c) hsplit (isDigitPart_natToChars a)
        (isDigitPart_natToChars b) (isDigitPart_natToChars c)).2
        (by rw [natOfChars_natToChars]; exact hc)
      have h4 := truncStage_three_small
        ⟨joinDots [natToChars a, natToChars b, natToChars c]⟩
        (natToChars a) (natToChars b) (natToChars c) hsplit (isDigitPart_natToChars a)
        (isDigitPart_natToChars b) (isDigitPart_natToChars c)
        (by rw [natOfChars_natToChars]; exact ha)
        (by rw [natOfChars_natToChars]; exact hb)
        (by rw [natOfChars_natToChars]; exact hc)
      rw [h3, h4]
      rfl
  · have htp : truncatedParts [a, b, c, d] = [a, b, c, d] := by
      rw [truncatedParts, if_neg (by simp [hd0]), truncatedParts, if_neg (by simp [hd0]),
        truncatedParts, if_neg (by simp [hd0]), truncatedParts, if_pos (by decide)]
    exact absurd (by rw [truncatedRepr, htp]; rfl) hemit

/-- Witness for C3 at `1.2.0.0`: its Truncated string `"1.2"` re-parses to
the redistributed `1.0.0.2`. -/
theorem C3_witness :
    parse_input ⟨truncatedRepr [1, 2, 0, 0]⟩ =
      ParseResult.ok ⟨renderQuad (padLast (truncatedParts [1, 2, 0, 0]))⟩ :=
  C3_theorem 1 2 0 0 (by decide) (by decide) (by decide) (by decide) (by decide)

/-- An all-digit/dot input is claimed before the octal rule exactly when one
of rules 1, 2, 5 or 6 handles it (rules 3 and 4 need an `x` or `:`
character, which digit/dot strings cannot contain). -/
def claimedEarly (l : List Char) : Prop :=
  matchStd4 l = true ∨ isDigitPart l = true ∨
  (matchDotted3 l = true ∧ 255 < natOfChars ((splitOnDot l).getD 2 [])) ∨
  (matchDotted23 l = true ∧
    ((splitOnDot l).length = 2 ∨ ∀ p ∈ splitOnDot l, natOfChars p ≤ 255))

instance claimedEarlyDec (l : List Char) : Decidable (claimedEarly l) := by
  unfold claimedEarly
  infer_instance

theorem octalPartsConv_length :
    ∀ {ps qs : List (List Char)}, octalPartsConv ps = some qs → qs.length = ps.length := by
  intro ps
  induction ps with
  | nil => intro qs h; cases h; rfl
  | cons p t ih =>
    intro qs h
    rw [octalPartsConv] at h
    cases hp : octalPartConv p with
    | none => rw [hp] at h; cases h
    | some q =>
      rw [hp] at h
      cases ht : octalPartsConv t with
      | none => rw [ht] at h; cases h
      | some qt =>
        rw [ht] at h
        cases h
        rw [List.length_cons, List.length_cons, ih ht]

theorem octalPartConv_ne_nil {p q : List Char} (h : octalPartConv p = some q)
    (hp : p ≠ []) : q ≠ [] := by
  rw [octalPartConv] at h
  split_ifs at h with hcond
  · cases hv : pyIntOct p with
    | none => rw [hv] at h; cases h
    | some v =>
      rw [hv] at h
      cases h
      exact renderBase_ne_nil (by norm_num) v
  · cases h
    exact hp

/-- Claim C10, counterexample: `"09.1.2.3.4"` is nonempty, consists only of
digits and dots, and is claimed by no earlier rule, yet the octal rule's
`int("09", 8)` fails (ValueError), so the detector returns NoMatch
(unrecognized format), not a string. -/
theorem C10_counterexample :
    ("09.1.2.3.4" : String) ≠ "" ∧
    ("09.1.2.3.4" : String).data.all digitOrDot = true ∧
    ¬ claimedEarly ("09.1.2.3.4" : String).data ∧
    parse_input "09.1.2.3.4" = ParseResult.noMatch := by
  refine ⟨by decide, by decide, by decide, by decide⟩

/-- Claim C10, amended: a nonempty all-digit/dot input not claimed by an
earlier rule reaches the octal fallback; provided every group survives the
per-group octal conversion (no group starting `0` of length > 1 containing
an 8 or 9), the detector returns the (nonempty, possibly non-four-group)
joined string rather than NoMatch, and the pipeline then either succeeds on
it (when it happens to be a valid address) or reports the invalid-address
error at the expansion stage rather than an unrecognized-format error;
inputs whose octal conversion fails yield NoMatch instead. -/
theorem C10_theorem (s : String) (qs : List (List Char))
    (hne : s.data ≠ [])
    (hdd : s.data.all digitOrDot = true)
    (hnotcl : ¬ claimedEarly s.data)
    (hoct : octalPartsConv (splitOnDot s.data) = some qs) :
    parse_input s = ParseResult.ok ⟨joinDots qs⟩ ∧
    (⟨joinDots qs⟩ : String) ≠ "" ∧
    (validIPv4 (joinDots qs) = true ∨
      mainOutput s = ["Error: Invalid IPv4 address '" ++ (⟨joinDots qs⟩ : String) ++ "'"]) := by
  rw [claimedEarly] at hnotcl
  push_neg at hnotcl
  obtain ⟨h1, h2, h3, h4⟩ := hnotcl
  have hstd : matchStd4 s.data = false := Bool.eq_false_iff.mpr h1
  have hdig : isDigitPart s.data = false := Bool.eq_false_iff.mpr h2
  have hddm : ∀ c ∈ s.data, digitOrDot c = true := List.all_eq_true.mp hdd
  have hparse := parse_to_overflowStage s hddm hstd hdig
  have hover : fromOverflowStage s.data = fromTruncStage s.data := by
    rw [fromOverflowStage]
    by_cases hm3 : matchDotted3 s.data = true
    · rw [if_pos hm3, if_neg (fun hgt => absurd (h3 hm3) (by omega))]
    · rw [if_neg hm3]
  have htrunc : fromTruncStage s.data = fromOctalStage s.data := by
    rw [fromTruncStage]
    by_cases hm23 : matchDotted23 s.data = true
    · rw [if_pos hm23]
      obtain ⟨hlen, p, hpmem, hpgt⟩ := h4 hm23
      rw [if_neg (fun hl => hlen (by simpa using hl))]
      rw [if_neg (fun hall => by
        have hple := List.all_eq_true.mp hall p hpmem
        rw [decide_eq_true_eq] at hple
        omega)]
    · rw [if_neg hm23]
  have hoctal : fromOctalStage s.data = ParseResult.ok ⟨joinDots qs⟩ := by
    have hcond : (octalCondA s.data || octalCondB s.data) = true := by
      rw [Bool.or_eq_true]
      right
      rw [octalCondB]
      exact hdd
    have hrule : octalRuleConv s.data = some (joinDots qs) := by
      rw [octalRuleConv, hoct]
      rfl
    rw [fromOctalStage, if_pos hcond, hrule]
  have hmain1 : parse_input s = ParseResult.ok ⟨joinDots qs⟩ := by
    rw [hparse, hover, htrunc, hoctal]
  have hqne : joinDots qs ≠ [] := by
    cases hps : splitOnDot s.data with
    | nil => exact absurd hps (splitOnDot_ne_nil s.data)
    | cons p t =>
      cases t with
      | nil =>
        rw [hps, octalPartsConv] at hoct
        cases hp : octalPartConv p with
        | none => rw [hp] at hoct; cases hoct
        | some q =>
          rw [hp, octalPartsConv] at hoct
          cases hoct
          have hpne : p ≠ [] := by
            intro hpe
            have : s.data = joinDots [p] := by rw [← hps, join_split]
            rw [joinDots, hpe] at this
            exact hne this
          have := octalPartConv_ne_nil hp hpne
          rw [joinDots]
          exact this
      | cons p2 t2 =>
        have hlq : qs.length = (p :: p2 :: t2).length := by
          rw [← hps]
          exact octalPartsConv_length hoct
        cases hqs : qs with
        | nil => rw [hqs] at hlq; simp at hlq
        | cons q1 tq =>
          cases tq with
          | nil => rw [hqs] at hlq; simp at hlq
          | cons q2 tq2 =>
            rw [joinDots]
            intro habs
            rcases List.append_eq_nil.mp habs with ⟨_, hcontr⟩
            cases hcontr
  have hqne' : (⟨joinDots qs⟩ : String) ≠ "" := by
    intro habs
    have : joinDots qs = ("" : String).data := congrArg String.data habs
    exact hqne this
  refine ⟨hmain1, hqne', ?_⟩
  by_cases hval : validIPv4 (joinDots qs) = true
  · exact Or.inl hval
  · right
    have hconv : convert_ipv4 ⟨joinDots qs⟩ =
        Except.error ("Error: Invalid IPv4 address '" ++ (⟨joinDots qs⟩ : String) ++ "'") := by
      rw [convert_ipv4, if_neg hval]
    simp only [mainOutput, hmain1, hconv]
    rw [if_neg hqne']

/-- Witness for C10 at the five-group input `"1.2.3.4.5"`. -/
theorem C10_witness :
    parse_input "1.2.3.4.5" =
      ParseResult.ok ⟨joinDots [['1'], ['2'], ['3'], ['4'], ['5']]⟩ ∧
    (⟨joinDots [['1'], ['2'], ['3'], ['4'], ['5']]⟩ : String) ≠ "" ∧
    (validIPv4 (joinDots [['1'], ['2'], ['3'], ['4'], ['5']]) = true ∨
      mainOutput "1.2.3.4.5" =
        ["Error: Invalid IPv4 address '" ++
          (⟨joinDots [['1'], ['2'], ['3'], ['4'], ['5']]⟩ : String) ++ "'"]) :=
  C10_theorem "1.2.3.4.5" [['1'], ['2'], ['3'], ['4'], ['5']] (by decide) (by decide)
    (by decide) (by decide)
